import Mathlib

/-!
Shallow embedding of `src/snoop/src/client/snoop.py` (class `SnoopClient`).

Modelling conventions:
* Time values (`dt.datetime`) and durations (`dt.timedelta`) are integers in
  microseconds, the resolution of Python's `timedelta`.  `dt.datetime.now()`
  becomes an explicit `now : Int` parameter, one value per patrol tick.
* The discord.py collaborator is modelled by `World`: the guild/channel/member
  roster and the live voice state of every member (`none` when the member is
  not connected to voice, mirroring `member.voice is None`).
* Python attribute access on `None` (e.g. `suspect.voice.self_deaf` when
  `voice` is `None`, or `channel.send` when `dc.utils.get` returned `None`)
  is modelled as the error `PyErr.attributeError`.
* `self._suspects : Dict[dc.Member, dt.datetime]` is an association list with
  Python-dict semantics: assignment updates in place or appends, `del` removes
  the key.  Examined members are always present in the registry, so `erase` on
  an absent key is never reached from the patrol flow.
* An uncaught exception during a sweep is modelled by an `err` field carried
  next to the state: mutations made before the raise survive, and the
  enclosing loop stops at the first error, exactly as exception propagation
  does in `_examine_all_suspects` / `_patrol`.
-/

namespace Snoop

/-- Errors raised by the embedded Python fragments. -/
inductive PyErr where
  | attributeError
  deriving DecidableEq, Repr

/-- A `dc.Member` reference: opaque identity plus the guild it belongs to. -/
structure Member where
  id : Nat
  guildId : Nat
  deriving DecidableEq, Repr

/-- A member's live voice state: `member.voice.self_deaf` / `self_stream`. -/
structure VoiceState where
  self_deaf : Bool
  self_stream : Bool
  deriving DecidableEq, Repr

/-- A `dc.VoiceChannel`: the members currently connected to it. -/
structure VoiceChannel where
  members : List Member
  deriving Repr

/-- A `dc.Guild`: its voice channels and the names of its text channels
(`guild.channels`, searched by `dc.utils.get`). -/
structure Guild where
  gId : Nat
  voice_channels : List VoiceChannel
  channels : List String
  deriving Repr

/-- The live platform data the client reads: the roster (`self.guilds`) and
each member's current voice state (`member.voice`, `none` = not in voice). -/
structure World where
  guilds : List Guild
  voice : Member → Option VoiceState

/-- Side effects on the platform performed during a sweep. -/
inductive Action where
  | moveTo (m : Member)
  | send (guildId : Nat) (channel : String) (msg : String)
  deriving DecidableEq, Repr

/-- The suspect registry `self._suspects`: member → detection timestamp. -/
abbrev Registry := List (Member × Int)

/-- Dictionary lookup: `self._suspects[m]` / `self._suspects.get(m)`. -/
def lookup : Registry → Member → Option Int
  | [], _ => none
  | (k, v) :: rest, m => if k = m then some v else lookup rest m

/-- Membership test: `m in self._suspects`. -/
def containsKey (s : Registry) (m : Member) : Bool :=
  (lookup s m).isSome

/-- Dictionary assignment `self._suspects[m] = t`: update in place when the
key is present, append otherwise. -/
def dictSet : Registry → Member → Int → Registry
  | [], m, t => [(m, t)]
  | (k, v) :: rest, m, t =>
      if k = m then (k, t) :: rest else (k, v) :: dictSet rest m t

/-- Dictionary deletion `del self._suspects[m]` (keys are unique in a dict). -/
def erase : Registry → Member → Registry
  | [], _ => []
  | (k, v) :: rest, m => if k = m then rest else (k, v) :: erase rest m

/-- The keys of the registry, in insertion order. -/
def keys (s : Registry) : List Member :=
  s.map Prod.fst

/-- `dt.timedelta(seconds=0.1)` in microseconds: the equality allowance used
by `_probation_end_approaching`. -/
def allowance : Int := 100000

/-- `dt.timedelta(minutes=2)` in microseconds. -/
def twoMinutes : Int := 120000000

/-- `dt.timedelta(minutes=5)` in microseconds: the default probationary
period set in `__init__`. -/
def fiveMinutes : Int := 300000000

/-- A dynamically typed Python value, as far as `set_probationary_period`
inspects one: either a `dt.timedelta` or something else. -/
inductive PyVal where
  | timedelta (usec : Int)
  | int (n : Int)
  | str (s : String)
  deriving DecidableEq, Repr

/-- The mutable configuration of a `SnoopClient` relevant to
`set_probationary_period`. -/
structure SnoopClientState where
  announcement_channel : String
  probationary_period : Int
  suspects : Registry
  deriving Repr

/-- `set_probationary_period`: sets `self._probationary_period` only when
`isinstance(period, dt.timedelta)`; any other value is ignored. -/
def set_probationary_period (st : SnoopClientState) (period : PyVal) :
    SnoopClientState :=
  match period with
  | PyVal.timedelta d => { st with probationary_period := d }
  | _ => st

/-- `_is_suspicious`: `member.voice.self_deaf and not member.voice.self_stream`;
raises `AttributeError` when `member.voice` is `None`. -/
def is_suspicious (w : World) (m : Member) : Except PyErr Bool :=
  match w.voice m with
  | none => Except.error PyErr.attributeError
  | some v => Except.ok (v.self_deaf && !v.self_stream)

/-- `_mark_suspicious`: record the detection time of a new suspect. -/
def mark_suspicious (s : Registry) (m : Member) (now : Int) : Registry :=
  dictSet s m now

/-- `without_suspects` (local to `_find_suspects`): the members of a channel
that are not already tracked, computed against the registry at channel
entry. -/
def without_suspects (s : Registry) (members : List Member) : List Member :=
  members.filter (fun m => !containsKey s m)

/-- The inner loop of `_find_suspects` over one channel's filtered member
list: each member is classified (which may raise) and marked if suspicious.
The second component is the uncaught exception, if one was raised. -/
def scan_members (w : World) (now : Int) :
    List Member → Registry → Registry × Option PyErr
  | [], s => (s, none)
  | m :: ms, s =>
      match is_suspicious w m with
      | Except.error e => (s, some e)
      | Except.ok true => scan_members w now ms (mark_suspicious s m now)
      | Except.ok false => scan_members w now ms s

/-- The loop of `_find_suspects` over one guild's voice channels. -/
def scan_channels (w : World) (now : Int) :
    List VoiceChannel → Registry → Registry × Option PyErr
  | [], s => (s, none)
  | c :: cs, s =>
      match scan_members w now (without_suspects s c.members) s with
      | (s', some e) => (s', some e)
      | (s', none) => scan_channels w now cs s'

/-- The outer loop of `_find_suspects` over `self.guilds`. -/
def scan_guilds (w : World) (now : Int) :
    List Guild → Registry → Registry × Option PyErr
  | [], s => (s, none)
  | g :: gs, s =>
      match scan_channels w now g.voice_channels s with
      | (s', some e) => (s', some e)
      | (s', none) => scan_guilds w now gs s'

/-- `_find_suspects`: the full detection sweep. -/
def find_suspects (w : World) (now : Int) (s : Registry) :
    Registry × Option PyErr :=
  scan_guilds w now w.guilds s

/-- `_probation_period_ended`: `False` for non-suspects, otherwise
`now >= time_detected + probationary_period`. -/
def probation_period_ended (pp now : Int) (s : Registry) (m : Member) : Bool :=
  match lookup s m with
  | none => false
  | some time_detected => decide (now ≥ time_detected + pp)

/-- `_probation_end_approaching`: `False` for non-suspects, otherwise whether
`now` lies within `allowance` of `probation_end - 2 minutes`. -/
def probation_end_approaching (pp now : Int) (s : Registry) (m : Member) :
    Bool :=
  match lookup s m with
  | none => false
  | some time_detected =>
      let probation_end := time_detected + pp
      let almost_end := probation_end - twoMinutes
      decide (almost_end - allowance ≤ now ∧ now ≤ almost_end + allowance)

/-- `_get_announcement_channel`: `dc.utils.get(guild.channels, name=...)` on
the suspect's guild; `none` when no channel with that name exists. -/
def get_announcement_channel (w : World) (ac : String) (m : Member) :
    Option String :=
  match w.guilds.find? (fun g => g.gId == m.guildId) with
  | none => none
  | some g => g.channels.find? (fun n => n == ac)

/-- The warning text sent by `_sniff`. -/
def sniffMsg (m : Member) : String :=
  "*sniff* <@" ++ toString m.id ++ "> *sniff*"

/-- The announcement text sent by `_announce_snoop`. -/
def barkMsg (m : Member) : String :=
  "BARK BARK BARK <@" ++ toString m.id ++ "> BARK BARK BARK"

/-- `_sniff`: send the warning to the announcement channel; `channel.send`
raises `AttributeError` when the channel lookup returned `None`. -/
def sniff (w : World) (ac : String) (suspect : Member) :
    Except PyErr (List Action) :=
  match get_announcement_channel w ac suspect with
  | none => Except.error PyErr.attributeError
  | some ch => Except.ok [Action.send suspect.guildId ch (sniffMsg suspect)]

/-- `_announce_snoop`: send the disconnect announcement; raises like
`_sniff` when the channel is missing. -/
def announce_snoop (w : World) (ac : String) (snoop : Member) :
    Except PyErr (List Action) :=
  match get_announcement_channel w ac snoop with
  | none => Except.error PyErr.attributeError
  | some ch => Except.ok [Action.send snoop.guildId ch (barkMsg snoop)]

/-- The outcome of (part of) an examination sweep: the registry as mutated so
far, the platform actions performed so far, and the first uncaught
exception, if any. -/
structure ExamResult where
  suspects : Registry
  actions : List Action
  err : Option PyErr
  deriving DecidableEq, Repr

/-- `_handle_snoop`: `_disconnect_snoop` (move to `None`, then delete from
the registry) followed by `_announce_snoop`; an exception in the
announcement leaves the disconnect already done. -/
def handle_snoop (w : World) (ac : String) (s : Registry) (snoop : Member) :
    ExamResult :=
  let s' := erase s snoop
  match announce_snoop w ac snoop with
  | Except.error e => ⟨s', [Action.moveTo snoop], some e⟩
  | Except.ok acts => ⟨s', Action.moveTo snoop :: acts, none⟩

/-- `_examine_suspect`: clear when no longer self-deafened, else disconnect
when probation ended, else warn when the probation end is approaching.
Reading `suspect.voice.self_deaf` raises when `voice` is `None`. -/
def examine_suspect (w : World) (ac : String) (pp now : Int) (s : Registry)
    (suspect : Member) : ExamResult :=
  match w.voice suspect with
  | none => ⟨s, [], some PyErr.attributeError⟩
  | some v =>
      if !v.self_deaf then ⟨erase s suspect, [], none⟩
      else if probation_period_ended pp now s suspect then
        handle_snoop w ac s suspect
      else if probation_end_approaching pp now s suspect then
        match sniff w ac suspect with
        | Except.error e => ⟨s, [], some e⟩
        | Except.ok acts => ⟨s, acts, none⟩
      else ⟨s, [], none⟩

/-- The loop of `_examine_all_suspects` over a snapshot of the registry's
keys; an exception while examining one suspect propagates and stops the
loop, keeping the mutations made so far. -/
def examine_list (w : World) (ac : String) (pp now : Int) :
    List Member → Registry → ExamResult
  | [], s => ⟨s, [], none⟩
  | m :: ms, s =>
      let r := examine_suspect w ac pp now s m
      match r.err with
      | some e => ⟨r.suspects, r.actions, some e⟩
      | none =>
          let r2 := examine_list w ac pp now ms r.suspects
          ⟨r2.suspects, r.actions ++ r2.actions, r2.err⟩

/-- `_examine_all_suspects`: examine every member of `tuple(self._suspects)`,
the key snapshot taken before the loop starts. -/
def examine_all_suspects (w : World) (ac : String) (pp now : Int)
    (s : Registry) : ExamResult :=
  examine_list w ac pp now (keys s) s

/-- One iteration of `_patrol`: `_find_suspects` then
`_examine_all_suspects`; an exception anywhere ends the tick (and in Python
kills the task), keeping the registry as mutated so far. -/
def patrol_tick (w : World) (ac : String) (pp now : Int) (s : Registry) :
    Registry :=
  match find_suspects w now s with
  | (s1, some _) => s1
  | (s1, none) => (examine_all_suspects w ac pp now s1).suspects

/-- A run of the patrol loop over a sequence of observed worlds and tick
times, starting from a given registry. -/
def patrol_run (ac : String) (pp : Int) :
    List (World × Int) → Registry → Registry
  | [], s => s
  | (w, t) :: rest, s => patrol_run ac pp rest (patrol_tick w ac pp t s)

/-- All members currently connected to some voice channel of some guild. -/
def allVoiceMembers (w : World) : List Member :=
  (w.guilds.flatMap Guild.voice_channels).flatMap VoiceChannel.members

/-- Platform well-formedness: every member listed in a voice channel has a
live voice state (discord guarantees this for connected members). -/
def voiceOk (w : World) : Prop :=
  ∀ x ∈ allVoiceMembers w, (w.voice x).isSome

/-- Platform well-formedness: a voice channel lists each connected member
once. -/
def rosterNodup (w : World) : Prop :=
  ∀ g ∈ w.guilds, ∀ c ∈ g.voice_channels, c.members.Nodup

/-! ### Registry (Python dict) lemmas -/

theorem lookup_dictSet_self (s : Registry) (m : Member) (t : Int) :
    lookup (dictSet s m t) m = some t := by
  induction s with
  | nil => simp [dictSet, lookup]
  | cons kv rest ih =>
      obtain ⟨a, b⟩ := kv
      by_cases h : a = m
      · simp [dictSet, h, lookup]
      · simp [dictSet, h, lookup, ih]

theorem lookup_dictSet_ne (s : Registry) {k m : Member} (h : k ≠ m) (t : Int) :
    lookup (dictSet s m t) k = lookup s k := by
  induction s with
  | nil => simp [dictSet, lookup, Ne.symm h]
  | cons kv rest ih =>
      obtain ⟨a, b⟩ := kv
      by_cases hk : a = m
      · simp [dictSet, hk, lookup, Ne.symm h]
      · by_cases hkk : a = k <;> simp [dictSet, hk, lookup, hkk, h, ih]

theorem lookup_erase_ne {k m : Member} (h : k ≠ m) (s : Registry) :
    lookup (erase s m) k = lookup s k := by
  induction s with
  | nil => simp [erase]
  | cons kv rest ih =>
      obtain ⟨a, b⟩ := kv
      by_cases hm : a = m
      · simp [erase, hm, lookup, Ne.symm h]
      · by_cases hkk : a = k <;> simp [erase, hm, lookup, hkk, h, ih]

theorem lookup_eq_none_of_not_mem_keys {s : Registry} {m : Member}
    (h : m ∉ keys s) : lookup s m = none := by
  induction s with
  | nil => simp [lookup]
  | cons kv rest ih =>
      simp only [keys, List.map_cons, List.mem_cons, not_or] at h
      have hne : ¬kv.1 = m := fun he => h.1 he.symm
      simp [lookup, hne, ih (by simpa [keys] using h.2)]

theorem mem_keys_of_lookup_eq_some {s : Registry} {m : Member} {t : Int}
    (h : lookup s m = some t) : m ∈ keys s := by
  by_contra hmem
  rw [lookup_eq_none_of_not_mem_keys hmem] at h
  exact Option.noConfusion h

theorem lookup_erase_self {s : Registry} (m : Member)
    (h : (keys s).Nodup) : lookup (erase s m) m = none := by
  induction s with
  | nil => simp [erase, lookup]
  | cons kv rest ih =>
      obtain ⟨a, b⟩ := kv
      simp only [keys, List.map_cons, List.nodup_cons] at h
      by_cases hm : a = m
      · subst hm
        simp only [erase, if_true]
        exact lookup_eq_none_of_not_mem_keys (by simpa [keys] using h.1)
      · simp [erase, hm, lookup, ih (by simpa [keys] using h.2)]

theorem lookup_erase_of_lookup_eq_none {s : Registry} {m : Member}
    (x : Member) (h : lookup s m = none) : lookup (erase s x) m = none := by
  induction s with
  | nil => simpa [erase] using h
  | cons kv rest ih =>
      obtain ⟨a, b⟩ := kv
      simp only [lookup] at h
      by_cases hk : a = m
      · simp [hk] at h
      · simp only [lookup, hk, if_false] at h
        by_cases hx : a = x
        · simpa [erase, hx] using h
        · simpa [erase, hx, lookup, hk] using ih h

theorem lookup_isSome_of_mem_keys {s : Registry} {m : Member}
    (h : m ∈ keys s) : (lookup s m).isSome := by
  induction s with
  | nil => simp [keys] at h
  | cons kv rest ih =>
      obtain ⟨a, b⟩ := kv
      have h' : m = a ∨ m ∈ keys rest := by simpa [keys] using h
      rcases h' with h' | h'
      · simp [lookup, h'.symm]
      · by_cases hk : a = m
        · simp [lookup, hk]
        · simpa [lookup, hk] using ih h'

theorem mem_keys_dictSet {s : Registry} {x m : Member} {t : Int}
    (h : x ∈ keys (dictSet s m t)) : x ∈ keys s ∨ x = m := by
  by_cases hx : x = m
  · exact Or.inr hx
  · refine Or.inl ?_
    have h1 := lookup_isSome_of_mem_keys h
    rw [lookup_dictSet_ne s hx t] at h1
    rcases Option.isSome_iff_exists.mp h1 with ⟨t0, ht⟩
    exact mem_keys_of_lookup_eq_some ht

theorem keys_dictSet (s : Registry) (m : Member) (t : Int) :
    keys (dictSet s m t)
      = if containsKey s m then keys s else keys s ++ [m] := by
  induction s with
  | nil => simp [dictSet, keys, containsKey, lookup]
  | cons kv rest ih =>
      obtain ⟨a, b⟩ := kv
      by_cases hk : a = m
      · simp [dictSet, hk, keys, containsKey, lookup]
      · have ih' : List.map Prod.fst (dictSet rest m t)
            = if (lookup rest m).isSome then List.map Prod.fst rest
              else List.map Prod.fst rest ++ [m] := by
          simpa [keys, containsKey] using ih
        by_cases hc : (lookup rest m).isSome <;>
          simp [dictSet, hk, keys, containsKey, lookup, ih', hc]

theorem keys_nodup_dictSet {s : Registry} (m : Member) (t : Int)
    (h : (keys s).Nodup) : (keys (dictSet s m t)).Nodup := by
  rw [keys_dictSet]
  by_cases hc : containsKey s m
  · rw [if_pos hc]
    exact h
  · have hm : m ∉ keys s := by
      intro hmem
      exact hc (by simpa [containsKey] using lookup_isSome_of_mem_keys hmem)
    simp [hc, List.nodup_append, h, hm]

theorem keys_erase_sublist (s : Registry) (m : Member) :
    List.Sublist (keys (erase s m)) (keys s) := by
  induction s with
  | nil => simp [erase, keys]
  | cons kv rest ih =>
      obtain ⟨a, b⟩ := kv
      by_cases hk : a = m
      · subst hk
        simp only [erase, if_pos rfl]
        exact List.sublist_cons_self a (keys rest)
      · simpa [erase, hk, keys] using List.Sublist.cons₂ a ih

theorem keys_nodup_erase {s : Registry} (m : Member)
    (h : (keys s).Nodup) : (keys (erase s m)).Nodup :=
  (keys_erase_sublist s m).nodup h

/-! ### Detection-sweep lemmas -/

theorem is_suspicious_isOk {w : World} {x : Member}
    (h : (w.voice x).isSome) : ∃ b : Bool, is_suspicious w x = Except.ok b := by
  cases hv : w.voice x with
  | none => rw [hv] at h; simp at h
  | some v =>
      exact ⟨v.self_deaf && !v.self_stream, by simp [is_suspicious, hv]⟩

theorem is_suspicious_ne_true {w : World} {m : Member}
    (h : ∀ v, w.voice m = some v → v.self_deaf = false) :
    is_suspicious w m ≠ Except.ok true := by
  cases hv : w.voice m with
  | none => simp [is_suspicious, hv]
  | some v => simp [is_suspicious, hv, h v hv]

theorem mem_without_suspects {s : Registry} {ms : List Member} {x : Member} :
    x ∈ without_suspects s ms ↔ x ∈ ms ∧ lookup s x = none := by
  constructor
  · intro h
    have h' := List.mem_filter.mp h
    refine ⟨h'.1, ?_⟩
    have hc : containsKey s x = false := by simpa using h'.2
    cases hl : lookup s x with
    | none => rfl
    | some t => simp [containsKey, hl] at hc
  · rintro ⟨h1, h2⟩
    exact List.mem_filter.mpr ⟨h1, by simp [containsKey, h2]⟩

theorem without_suspects_nodup {s : Registry} {ms : List Member}
    (h : ms.Nodup) : (without_suspects s ms).Nodup :=
  h.filter _

theorem scan_members_err_none {w : World} {now : Int} {ms : List Member}
    {s : Registry} (h : ∀ x ∈ ms, (w.voice x).isSome) :
    (scan_members w now ms s).2 = none := by
  induction ms generalizing s with
  | nil => rfl
  | cons x xs ih =>
      rcases is_suspicious_isOk (h x (List.mem_cons_self x xs)) with ⟨b, hb⟩
      cases b <;>
        simp [scan_members, hb,
          ih fun y hy => h y (List.mem_cons_of_mem x hy)]

theorem scan_members_lookup_not_mem {w : World} {now : Int} {ms : List Member}
    {s : Registry} {m : Member} (h : m ∉ ms) :
    lookup (scan_members w now ms s).1 m = lookup s m := by
  induction ms generalizing s with
  | nil => rfl
  | cons x xs ih =>
      have hxm : m ≠ x := fun he => h (he ▸ List.mem_cons_self x xs)
      have hxs : m ∉ xs := fun hm => h (List.mem_cons_of_mem x hm)
      cases hb : is_suspicious w x with
      | error e => simp [scan_members, hb]
      | ok b =>
          cases b with
          | false => simp [scan_members, hb, ih hxs]
          | true =>
              simp [scan_members, hb, ih hxs, mark_suspicious,
                lookup_dictSet_ne s hxm now]

theorem scan_members_lookup_not_susp {w : World} {now : Int}
    {ms : List Member} {s : Registry} {m : Member}
    (h : is_suspicious w m ≠ Except.ok true) :
    lookup (scan_members w now ms s).1 m = lookup s m := by
  induction ms generalizing s with
  | nil => rfl
  | cons x xs ih =>
      cases hb : is_suspicious w x with
      | error e => simp [scan_members, hb]
      | ok b =>
          cases b with
          | false => simp [scan_members, hb, ih]
          | true =>
              have hxm : m ≠ x := fun he => h (he ▸ hb)
              simp [scan_members, hb, ih, mark_suspicious,
                lookup_dictSet_ne s hxm now]

theorem scan_members_lookup_some {w : World} {now : Int} {ms : List Member}
    {s : Registry} {m : Member} {t : Int} (hnd : ms.Nodup)
    (habs : ∀ x ∈ ms, lookup s x = none) (h : lookup s m = some t) :
    lookup (scan_members w now ms s).1 m = some t := by
  induction ms generalizing s with
  | nil => simpa [scan_members] using h
  | cons x xs ih =>
      have hxm : m ≠ x := fun he => by
        rw [he, habs x (List.mem_cons_self x xs)] at h
        exact Option.noConfusion h
      cases hb : is_suspicious w x with
      | error e => simpa [scan_members, hb] using h
      | ok b =>
          cases b with
          | false =>
              have hrec := ih (List.nodup_cons.mp hnd).2
                (fun y hy => habs y (List.mem_cons_of_mem x hy)) h
              simpa [scan_members, hb] using hrec
          | true =>
              have habs' : ∀ y ∈ xs, lookup (mark_suspicious s x now) y
                  = none := by
                intro y hy
                have hyx : y ≠ x := fun he =>
                  (List.nodup_cons.mp hnd).1 (he ▸ hy)
                rw [mark_suspicious, lookup_dictSet_ne s hyx now]
                exact habs y (List.mem_cons_of_mem x hy)
              have h' : lookup (mark_suspicious s x now) m = some t := by
                rw [mark_suspicious, lookup_dictSet_ne s hxm now]
                exact h
              simpa [scan_members, hb] using
                ih (List.nodup_cons.mp hnd).2 habs' h'

theorem scan_members_lookup_mem {w : World} {now : Int} {ms : List Member}
    {s : Registry} {m : Member} (hnd : ms.Nodup)
    (hvm : ∀ x ∈ ms, (w.voice x).isSome)
    (habs : ∀ x ∈ ms, lookup s x = none) (hm : m ∈ ms)
    (hsusp : is_suspicious w m = Except.ok true) :
    lookup (scan_members w now ms s).1 m = some now := by
  induction ms generalizing s with
  | nil => cases hm
  | cons x xs ih =>
      rcases List.mem_cons.mp hm with hmx | hmx
      · subst hmx
        rw [show scan_members w now (m :: xs) s
            = scan_members w now xs (mark_suspicious s m now) by
          simp [scan_members, hsusp]]
        have hnm : m ∉ xs := (List.nodup_cons.mp hnd).1
        rw [scan_members_lookup_not_mem hnm, mark_suspicious,
          lookup_dictSet_self]
      · have hxm : m ≠ x := fun he =>
          (List.nodup_cons.mp hnd).1 (he ▸ hmx)
        rcases is_suspicious_isOk (hvm x (List.mem_cons_self x xs))
          with ⟨b, hb⟩
        cases b with
        | false =>
            have hrec := ih (List.nodup_cons.mp hnd).2
              (fun y hy => hvm y (List.mem_cons_of_mem x hy))
              (fun y hy => habs y (List.mem_cons_of_mem x hy)) hmx
            simpa [scan_members, hb] using hrec
        | true =>
            have habs' : ∀ y ∈ xs, lookup (mark_suspicious s x now) y
                = none := by
              intro y hy
              have hyx : y ≠ x := fun he =>
                (List.nodup_cons.mp hnd).1 (he ▸ hy)
              rw [mark_suspicious, lookup_dictSet_ne s hyx now]
              exact habs y (List.mem_cons_of_mem x hy)
            simpa [scan_members, hb] using
              ih (List.nodup_cons.mp hnd).2
                (fun y hy => hvm y (List.mem_cons_of_mem x hy)) habs' hmx

theorem scan_members_keys_nodup {w : World} {now : Int} {ms : List Member}
    {s : Registry} (h : (keys s).Nodup) :
    (keys (scan_members w now ms s).1).Nodup := by
  induction ms generalizing s with
  | nil => exact h
  | cons x xs ih =>
      cases hb : is_suspicious w x with
      | error e => simpa [scan_members, hb] using h
      | ok b =>
          cases b with
          | false => simpa [scan_members, hb] using ih h
          | true =>
              simpa [scan_members, hb] using
                ih (keys_nodup_dictSet x now h)

theorem scan_channels_err_none {w : World} {now : Int} {cs : List VoiceChannel}
    {s : Registry} (hvm : ∀ c ∈ cs, ∀ x ∈ c.members, (w.voice x).isSome) :
    (scan_channels w now cs s).2 = none := by
  induction cs generalizing s with
  | nil => rfl
  | cons c cs ih =>
      have h1 : (scan_members w now (without_suspects s c.members) s).2
          = none :=
        scan_members_err_none fun x hx =>
          hvm c (List.mem_cons_self c cs) x (mem_without_suspects.mp hx).1
      rcases hsc : scan_members w now (without_suspects s c.members) s
        with ⟨s', e⟩
      rw [hsc] at h1
      cases e with
      | some e => exact absurd h1 (by simp)
      | none =>
          have hrec := ih (s := s')
            fun c' hc' => hvm c' (List.mem_cons_of_mem c hc')
          simpa [scan_channels, hsc] using hrec

theorem scan_channels_lookup_some {w : World} {now : Int}
    {cs : List VoiceChannel} {s : Registry} {m : Member} {t : Int}
    (hnd : ∀ c ∈ cs, c.members.Nodup) (h : lookup s m = some t) :
    lookup (scan_channels w now cs s).1 m = some t := by
  induction cs generalizing s with
  | nil => simpa [scan_channels] using h
  | cons c cs ih =>
      have h1 : lookup
          (scan_members w now (without_suspects s c.members) s).1 m
          = some t :=
        scan_members_lookup_some
          (without_suspects_nodup (hnd c (List.mem_cons_self c cs)))
          (fun x hx => (mem_without_suspects.mp hx).2) h
      rcases hsc : scan_members w now (without_suspects s c.members) s
        with ⟨s', e⟩
      rw [hsc] at h1
      cases e with
      | some e => simpa [scan_channels, hsc] using h1
      | none =>
          have hrec := ih
            (fun c' hc' => hnd c' (List.mem_cons_of_mem c hc')) h1
          simpa [scan_channels, hsc] using hrec

theorem scan_channels_lookup_not_susp {w : World} {now : Int}
    {cs : List VoiceChannel} {s : Registry} {m : Member}
    (h : is_suspicious w m ≠ Except.ok true) :
    lookup (scan_channels w now cs s).1 m = lookup s m := by
  induction cs generalizing s with
  | nil => rfl
  | cons c cs ih =>
      have h1 : lookup
          (scan_members w now (without_suspects s c.members) s).1 m
          = lookup s m :=
        scan_members_lookup_not_susp h
      rcases hsc : scan_members w now (without_suspects s c.members) s
        with ⟨s', e⟩
      rw [hsc] at h1
      cases e with
      | some e => simpa [scan_channels, hsc] using h1
      | none =>
          have hrec := ih (s := s')
          rw [h1] at hrec
          simpa [scan_channels, hsc] using hrec

theorem scan_channels_lookup_not_mem_any {w : World} {now : Int}
    {cs : List VoiceChannel} {s : Registry} {m : Member}
    (h : ∀ c ∈ cs, m ∉ c.members) (h0 : lookup s m = none) :
    lookup (scan_channels w now cs s).1 m = none := by
  induction cs generalizing s with
  | nil => simpa [scan_channels] using h0
  | cons c cs ih =>
      have h1 : lookup
          (scan_members w now (without_suspects s c.members) s).1 m
          = none := by
        rw [scan_members_lookup_not_mem fun hx =>
          h c (List.mem_cons_self c cs) (mem_without_suspects.mp hx).1]
        exact h0
      rcases hsc : scan_members w now (without_suspects s c.members) s
        with ⟨s', e⟩
      rw [hsc] at h1
      cases e with
      | some e => simpa [scan_channels, hsc] using h1
      | none =>
          have hrec := ih
            (fun c' hc' => h c' (List.mem_cons_of_mem c hc')) h1
          simpa [scan_channels, hsc] using hrec

theorem scan_channels_lookup_susp_mem {w : World} {now : Int}
    {cs : List VoiceChannel} {s : Registry} {m : Member}
    (hvm : ∀ c ∈ cs, ∀ x ∈ c.members, (w.voice x).isSome)
    (hnd : ∀ c ∈ cs, c.members.Nodup) (h0 : lookup s m = none)
    (hc : ∃ c ∈ cs, m ∈ c.members)
    (hsusp : is_suspicious w m = Except.ok true) :
    lookup (scan_channels w now cs s).1 m = some now := by
  induction cs generalizing s with
  | nil => rcases hc with ⟨c, hcc, _⟩; cases hcc
  | cons c cs ih =>
      have herr : (scan_members w now (without_suspects s c.members) s).2
          = none :=
        scan_members_err_none fun x hx =>
          hvm c (List.mem_cons_self c cs) x (mem_without_suspects.mp hx).1
      by_cases hmem : m ∈ c.members
      · have h1 : lookup
            (scan_members w now (without_suspects s c.members) s).1 m
            = some now :=
          scan_members_lookup_mem
            (without_suspects_nodup (hnd c (List.mem_cons_self c cs)))
            (fun x hx =>
              hvm c (List.mem_cons_self c cs) x (mem_without_suspects.mp hx).1)
            (fun x hx => (mem_without_suspects.mp hx).2)
            (mem_without_suspects.mpr ⟨hmem, h0⟩) hsusp
        rcases hsc : scan_members w now (without_suspects s c.members) s
          with ⟨s', e⟩
        rw [hsc] at h1 herr
        cases e with
        | some e => exact absurd herr (by simp)
        | none =>
            have hrec := @scan_channels_lookup_some w now cs s' m now
              (fun c' hc' => hnd c' (List.mem_cons_of_mem c hc')) h1
            simpa [scan_channels, hsc] using hrec
      · have h1 : lookup
            (scan_members w now (without_suspects s c.members) s).1 m
            = none := by
          rw [scan_members_lookup_not_mem fun hx =>
            hmem (mem_without_suspects.mp hx).1]
          exact h0
        rcases hsc : scan_members w now (without_suspects s c.members) s
          with ⟨s', e⟩
        rw [hsc] at h1 herr
        cases e with
        | some e => exact absurd herr (by simp)
        | none =>
            have hc' : ∃ c' ∈ cs, m ∈ c'.members := by
              rcases hc with ⟨c', hcc, hm'⟩
              rcases List.mem_cons.mp hcc with rfl | hcc
              · exact absurd hm' hmem
              · exact ⟨c', hcc, hm'⟩
            have hrec := ih
              (fun c' hcc => hvm c' (List.mem_cons_of_mem c hcc))
              (fun c' hcc => hnd c' (List.mem_cons_of_mem c hcc)) h1 hc'
            simpa [scan_channels, hsc] using hrec

theorem scan_channels_keys_nodup {w : World} {now : Int}
    {cs : List VoiceChannel} {s : Registry} (h : (keys s).Nodup) :
    (keys (scan_channels w now cs s).1).Nodup := by
  induction cs generalizing s with
  | nil => exact h
  | cons c cs ih =>
      have h1 : (keys
          (scan_members w now (without_suspects s c.members) s).1).Nodup :=
        scan_members_keys_nodup h
      rcases hsc : scan_members w now (without_suspects s c.members) s
        with ⟨s', e⟩
      rw [hsc] at h1
      cases e with
      | some e => simpa [scan_channels, hsc] using h1
      | none =>
          have hrec := ih h1
          simpa [scan_channels, hsc] using hrec

theorem scan_members_stable {w : World} {now : Int} {ms : List Member}
    {s : Registry} (h : ∀ x ∈ ms, is_suspicious w x = Except.ok false) :
    scan_members w now ms s = (s, none) := by
  induction ms with
  | nil => rfl
  | cons x xs ih =>
      simp [scan_members, h x (List.mem_cons_self x xs),
        ih fun y hy => h y (List.mem_cons_of_mem x hy)]

theorem scan_channels_stable {w : World} {now : Int} {cs : List VoiceChannel}
    {s : Registry}
    (hvm : ∀ c ∈ cs, ∀ x ∈ c.members, (w.voice x).isSome)
    (hsat : ∀ c ∈ cs, ∀ x ∈ c.members,
      is_suspicious w x = Except.ok true → containsKey s x) :
    scan_channels w now cs s = (s, none) := by
  induction cs with
  | nil => rfl
  | cons c cs ih =>
      have h1 : scan_members w now (without_suspects s c.members) s
          = (s, none) := by
        refine scan_members_stable fun x hx => ?_
        rcases mem_without_suspects.mp hx with ⟨hxc, hxl⟩
        rcases is_suspicious_isOk
          (hvm c (List.mem_cons_self c cs) x hxc) with ⟨b, hb⟩
        cases b with
        | false => exact hb
        | true =>
            have hck := hsat c (List.mem_cons_self c cs) x hxc hb
            rw [containsKey, hxl] at hck
            cases hck
      have hrec := ih (fun c' hc' => hvm c' (List.mem_cons_of_mem c hc'))
        (fun c' hc' => hsat c' (List.mem_cons_of_mem c hc'))
      simp [scan_channels, h1, hrec]

theorem scan_guilds_err_none {w : World} {now : Int} {gs : List Guild}
    {s : Registry}
    (hvm : ∀ g ∈ gs, ∀ c ∈ g.voice_channels, ∀ x ∈ c.members,
      (w.voice x).isSome) :
    (scan_guilds w now gs s).2 = none := by
  induction gs generalizing s with
  | nil => rfl
  | cons g gs ih =>
      have h1 : (scan_channels w now g.voice_channels s).2 = none :=
        scan_channels_err_none (hvm g (List.mem_cons_self g gs))
      rcases hsc : scan_channels w now g.voice_channels s with ⟨s', e⟩
      rw [hsc] at h1
      cases e with
      | some e => exact absurd h1 (by simp)
      | none =>
          have hrec := ih (s := s')
            fun g' hg' => hvm g' (List.mem_cons_of_mem g hg')
          simpa [scan_guilds, hsc] using hrec

theorem scan_guilds_lookup_some {w : World} {now : Int} {gs : List Guild}
    {s : Registry} {m : Member} {t : Int}
    (hnd : ∀ g ∈ gs, ∀ c ∈ g.voice_channels, c.members.Nodup)
    (h : lookup s m = some t) :
    lookup (scan_guilds w now gs s).1 m = some t := by
  induction gs generalizing s with
  | nil => simpa [scan_guilds] using h
  | cons g gs ih =>
      have h1 : lookup (scan_channels w now g.voice_channels s).1 m
          = some t :=
        scan_channels_lookup_some (hnd g (List.mem_cons_self g gs)) h
      rcases hsc : scan_channels w now g.voice_channels s with ⟨s', e⟩
      rw [hsc] at h1
      cases e with
      | some e => simpa [scan_guilds, hsc] using h1
      | none =>
          have hrec := ih
            (fun g' hg' => hnd g' (List.mem_cons_of_mem g hg')) h1
          simpa [scan_guilds, hsc] using hrec

theorem scan_guilds_lookup_not_susp {w : World} {now : Int} {gs : List Guild}
    {s : Registry} {m : Member} (h : is_suspicious w m ≠ Except.ok true) :
    lookup (scan_guilds w now gs s).1 m = lookup s m := by
  induction gs generalizing s with
  | nil => rfl
  | cons g gs ih =>
      have h1 : lookup (scan_channels w now g.voice_channels s).1 m
          = lookup s m :=
        scan_channels_lookup_not_susp h
      rcases hsc : scan_channels w now g.voice_channels s with ⟨s', e⟩
      rw [hsc] at h1
      cases e with
      | some e => simpa [scan_guilds, hsc] using h1
      | none =>
          have hrec := ih (s := s')
          rw [h1] at hrec
          simpa [scan_guilds, hsc] using hrec

theorem scan_guilds_lookup_not_mem_any {w : World} {now : Int}
    {gs : List Guild} {s : Registry} {m : Member}
    (h : ∀ g ∈ gs, ∀ c ∈ g.voice_channels, m ∉ c.members)
    (h0 : lookup s m = none) :
    lookup (scan_guilds w now gs s).1 m = none := by
  induction gs generalizing s with
  | nil => simpa [scan_guilds] using h0
  | cons g gs ih =>
      have h1 : lookup (scan_channels w now g.voice_channels s).1 m
          = none :=
        scan_channels_lookup_not_mem_any
          (h g (List.mem_cons_self g gs)) h0
      rcases hsc : scan_channels w now g.voice_channels s with ⟨s', e⟩
      rw [hsc] at h1
      cases e with
      | some e => simpa [scan_guilds, hsc] using h1
      | none =>
          have hrec := ih
            (fun g' hg' => h g' (List.mem_cons_of_mem g hg')) h1
          simpa [scan_guilds, hsc] using hrec

theorem scan_guilds_lookup_susp_mem {w : World} {now : Int} {gs : List Guild}
    {s : Registry} {m : Member}
    (hvm : ∀ g ∈ gs, ∀ c ∈ g.voice_channels, ∀ x ∈ c.members,
      (w.voice x).isSome)
    (hnd : ∀ g ∈ gs, ∀ c ∈ g.voice_channels, c.members.Nodup)
    (h0 : lookup s m = none)
    (hg : ∃ g ∈ gs, ∃ c ∈ g.voice_channels, m ∈ c.members)
    (hsusp : is_suspicious w m = Except.ok true) :
    lookup (scan_guilds w now gs s).1 m = some now := by
  induction gs generalizing s with
  | nil => rcases hg with ⟨g, hgg, _⟩; cases hgg
  | cons g gs ih =>
      have herr : (scan_channels w now g.voice_channels s).2 = none :=
        scan_channels_err_none (hvm g (List.mem_cons_self g gs))
      by_cases hmem : ∃ c ∈ g.voice_channels, m ∈ c.members
      · have h1 : lookup (scan_channels w now g.voice_channels s).1 m
            = some now :=
          scan_channels_lookup_susp_mem (hvm g (List.mem_cons_self g gs))
            (hnd g (List.mem_cons_self g gs)) h0 hmem hsusp
        rcases hsc : scan_channels w now g.voice_channels s with ⟨s', e⟩
        rw [hsc] at h1 herr
        cases e with
        | some e => exact absurd herr (by simp)
        | none =>
            have hrec := @scan_guilds_lookup_some w now gs s' m now
              (fun g' hg' => hnd g' (List.mem_cons_of_mem g hg')) h1
            simpa [scan_guilds, hsc] using hrec
      · have h1 : lookup (scan_channels w now g.voice_channels s).1 m
            = none :=
          scan_channels_lookup_not_mem_any
            (fun c hc hm' => hmem ⟨c, hc, hm'⟩) h0
        rcases hsc : scan_channels w now g.voice_channels s with ⟨s', e⟩
        rw [hsc] at h1 herr
        cases e with
        | some e => exact absurd herr (by simp)
        | none =>
            have hg' : ∃ g' ∈ gs, ∃ c ∈ g'.voice_channels, m ∈ c.members := by
              rcases hg with ⟨g', hgg, hc'⟩
              rcases List.mem_cons.mp hgg with rfl | hgg
              · exact absurd hc' hmem
              · exact ⟨g', hgg, hc'⟩
            have hrec := ih
              (fun g' hgg => hvm g' (List.mem_cons_of_mem g hgg))
              (fun g' hgg => hnd g' (List.mem_cons_of_mem g hgg)) h1 hg'
            simpa [scan_guilds, hsc] using hrec

theorem scan_guilds_keys_nodup {w : World} {now : Int} {gs : List Guild}
    {s : Registry} (h : (keys s).Nodup) :
    (keys (scan_guilds w now gs s).1).Nodup := by
  induction gs generalizing s with
  | nil => exact h
  | cons g gs ih =>
      have h1 : (keys (scan_channels w now g.voice_channels s).1).Nodup :=
        scan_channels_keys_nodup h
      rcases hsc : scan_channels w now g.voice_channels s with ⟨s', e⟩
      rw [hsc] at h1
      cases e with
      | some e => simpa [scan_guilds, hsc] using h1
      | none =>
          have hrec := ih h1
          simpa [scan_guilds, hsc] using hrec

theorem scan_guilds_stable {w : World} {now : Int} {gs : List Guild}
    {s : Registry}
    (hvm : ∀ g ∈ gs, ∀ c ∈ g.voice_channels, ∀ x ∈ c.members,
      (w.voice x).isSome)
    (hsat : ∀ g ∈ gs, ∀ c ∈ g.voice_channels, ∀ x ∈ c.members,
      is_suspicious w x = Except.ok true → containsKey s x) :
    scan_guilds w now gs s = (s, none) := by
  induction gs with
  | nil => rfl
  | cons g gs ih =>
      have h1 : scan_channels w now g.voice_channels s = (s, none) :=
        scan_channels_stable (hvm g (List.mem_cons_self g gs))
          (hsat g (List.mem_cons_self g gs))
      have hrec := ih (fun g' hg' => hvm g' (List.mem_cons_of_mem g hg'))
        (fun g' hg' => hsat g' (List.mem_cons_of_mem g hg'))
      simp [scan_guilds, h1, hrec]

theorem mem_allVoiceMembers {w : World} {m : Member} :
    m ∈ allVoiceMembers w
      ↔ ∃ g ∈ w.guilds, ∃ c ∈ g.voice_channels, m ∈ c.members := by
  simp only [allVoiceMembers, List.mem_flatMap]
  constructor
  · rintro ⟨c, ⟨g, hg, hc⟩, hm⟩
    exact ⟨g, hg, c, hc, hm⟩
  · rintro ⟨g, hg, c, hc, hm⟩
    exact ⟨c, ⟨g, hg, hc⟩, hm⟩

/-! ### Detection sweep: top-level facts -/

theorem find_suspects_err_none {w : World} {now : Int} {s : Registry}
    (hvm : voiceOk w) : (find_suspects w now s).2 = none := by
  refine scan_guilds_err_none fun g hg c hc x hx => ?_
  exact hvm x (mem_allVoiceMembers.mpr ⟨g, hg, c, hc, hx⟩)

theorem find_suspects_lookup_some {w : World} {now : Int} {s : Registry}
    {m : Member} {t : Int} (hnd : rosterNodup w) (h : lookup s m = some t) :
    lookup (find_suspects w now s).1 m = some t :=
  scan_guilds_lookup_some hnd h

theorem find_suspects_lookup_not_susp {w : World} {now : Int} {s : Registry}
    {m : Member} (h : is_suspicious w m ≠ Except.ok true) :
    lookup (find_suspects w now s).1 m = lookup s m :=
  scan_guilds_lookup_not_susp h

theorem find_suspects_lookup_new {w : World} {now : Int} {s : Registry}
    {m : Member} (hvm : voiceOk w) (hnd : rosterNodup w)
    (h0 : lookup s m = none) :
    lookup (find_suspects w now s).1 m
        = some now
      ↔ m ∈ allVoiceMembers w ∧ is_suspicious w m = Except.ok true := by
  constructor
  · intro h
    by_cases hsusp : is_suspicious w m = Except.ok true
    · by_cases hmem : m ∈ allVoiceMembers w
      · exact ⟨hmem, hsusp⟩
      · have : lookup (find_suspects w now s).1 m = none := by
          refine scan_guilds_lookup_not_mem_any ?_ h0
          intro g hg c hc hm'
          exact hmem (mem_allVoiceMembers.mpr ⟨g, hg, c, hc, hm'⟩)
        rw [this] at h
        exact Option.noConfusion h
    · have : lookup (find_suspects w now s).1 m = lookup s m :=
        find_suspects_lookup_not_susp hsusp
      rw [this, h0] at h
      exact Option.noConfusion h
  · rintro ⟨hmem, hsusp⟩
    refine scan_guilds_lookup_susp_mem ?_ hnd h0
      (mem_allVoiceMembers.mp hmem) hsusp
    intro g hg c hc x hx
    exact hvm x (mem_allVoiceMembers.mpr ⟨g, hg, c, hc, hx⟩)

theorem find_suspects_lookup_new_none {w : World} {now : Int} {s : Registry}
    {m : Member} (h0 : lookup s m = none)
    (h : ¬(m ∈ allVoiceMembers w ∧ is_suspicious w m = Except.ok true)) :
    lookup (find_suspects w now s).1 m = none := by
  by_cases hsusp : is_suspicious w m = Except.ok true
  · refine scan_guilds_lookup_not_mem_any ?_ h0
    intro g hg c hc hm'
    exact h ⟨mem_allVoiceMembers.mpr ⟨g, hg, c, hc, hm'⟩, hsusp⟩
  · rw [find_suspects_lookup_not_susp hsusp]
    exact h0

theorem find_suspects_keys_nodup {w : World} {now : Int} {s : Registry}
    (h : (keys s).Nodup) : (keys (find_suspects w now s).1).Nodup :=
  scan_guilds_keys_nodup h

theorem find_suspects_stable {w : World} {now : Int} {s : Registry}
    (hvm : voiceOk w)
    (hsat : ∀ x ∈ allVoiceMembers w,
      is_suspicious w x = Except.ok true → containsKey s x) :
    find_suspects w now s = (s, none) := by
  refine scan_guilds_stable ?_ ?_
  · intro g hg c hc x hx
    exact hvm x (mem_allVoiceMembers.mpr ⟨g, hg, c, hc, hx⟩)
  · intro g hg c hc x hx hs
    exact hsat x (mem_allVoiceMembers.mpr ⟨g, hg, c, hc, hx⟩) hs

theorem is_suspicious_eq_ok_true_iff {w : World} {m : Member} :
    is_suspicious w m = Except.ok true
      ↔ ∃ v, w.voice m = some v ∧ v.self_deaf = true
          ∧ v.self_stream = false := by
  cases hv : w.voice m with
  | none => simp [is_suspicious, hv]
  | some v =>
      simp [is_suspicious, hv, Bool.and_eq_true, Bool.not_eq_true']

/-! ### Examination sweep: registry never grows -/

theorem examine_suspect_lookup_none {w : World} {ac : String} {pp now : Int}
    {s : Registry} {m x : Member} (h : lookup s m = none) :
    lookup (examine_suspect w ac pp now s x).suspects m = none := by
  cases hv : w.voice x with
  | none => simpa [examine_suspect, hv] using h
  | some v =>
      by_cases hd : v.self_deaf
      · by_cases he : probation_period_ended pp now s x
        · cases hann : announce_snoop w ac x with
          | error e =>
              simp [examine_suspect, hv, hd, he, handle_snoop, hann,
                lookup_erase_of_lookup_eq_none x h]
          | ok acts =>
              simp [examine_suspect, hv, hd, he, handle_snoop, hann,
                lookup_erase_of_lookup_eq_none x h]
        · by_cases ha : probation_end_approaching pp now s x
          · cases hsn : sniff w ac x with
            | error e =>
                simpa [examine_suspect, hv, hd, he, ha, hsn] using h
            | ok acts =>
                simpa [examine_suspect, hv, hd, he, ha, hsn] using h
          · simpa [examine_suspect, hv, hd, he, ha] using h
      · simp only [Bool.not_eq_true] at hd
        simp [examine_suspect, hv, hd,
          lookup_erase_of_lookup_eq_none x h]

theorem examine_list_lookup_none {w : World} {ac : String} {pp now : Int}
    {ms : List Member} {s : Registry} {m : Member}
    (h : lookup s m = none) :
    lookup (examine_list w ac pp now ms s).suspects m = none := by
  induction ms generalizing s with
  | nil => exact h
  | cons x xs ih =>
      have h1 := @examine_suspect_lookup_none w ac pp now s m x h
      cases herr : (examine_suspect w ac pp now s x).err with
      | some e => simpa [examine_list, herr] using h1
      | none => simpa [examine_list, herr] using ih h1

theorem patrol_tick_lookup_none {w : World} {ac : String} {pp now : Int}
    {s : Registry} {m : Member}
    (hdeaf : ∀ v, w.voice m = some v → v.self_deaf = false)
    (h : lookup s m = none) :
    lookup (patrol_tick w ac pp now s) m = none := by
  have hfind : lookup (find_suspects w now s).1 m = none := by
    rw [find_suspects_lookup_not_susp (is_suspicious_ne_true hdeaf)]
    exact h
  rcases hf : find_suspects w now s with ⟨s1, e⟩
  rw [hf] at hfind
  cases e with
  | some e => simpa [patrol_tick, hf] using hfind
  | none =>
      simpa [patrol_tick, hf, examine_all_suspects] using
        examine_list_lookup_none hfind

/-! ### Claim theorems -/

/-- C3: the detection sweep raises nothing on a well-formed roster, never
refreshes the timestamp of an already-tracked member, and inserts a member
`m` with the current timestamp exactly when `m` is in some voice channel of
a connected guild, is not already tracked, and is self-deafened without
self-streaming; in particular a deafened member who is streaming is not
inserted. -/
theorem C3_detection_characterisation (w : World) (now : Int) (s : Registry)
    (m : Member) (hvm : voiceOk w) (hnd : rosterNodup w) :
    (find_suspects w now s).2 = none ∧
      (∀ t0 : Int, lookup s m = some t0 →
        lookup (find_suspects w now s).1 m = some t0) ∧
      (lookup s m = none →
        ((lookup (find_suspects w now s).1 m = some now
            ↔ m ∈ allVoiceMembers w ∧
              ∃ v, w.voice m = some v ∧ v.self_deaf = true
                ∧ v.self_stream = false) ∧
          (¬(m ∈ allVoiceMembers w ∧
              ∃ v, w.voice m = some v ∧ v.self_deaf = true
                ∧ v.self_stream = false) →
            lookup (find_suspects w now s).1 m = none))) := by
  refine ⟨find_suspects_err_none hvm,
    fun t0 h => find_suspects_lookup_some hnd h, fun h0 => ⟨?_, ?_⟩⟩
  · rw [find_suspects_lookup_new hvm hnd h0, is_suspicious_eq_ok_true_iff]
  · intro h
    refine find_suspects_lookup_new_none h0 ?_
    rw [is_suspicious_eq_ok_true_iff]
    exact h

/-- C3 witness: a guild with one voice channel holding a deafened
non-streaming member (inserted at the tick time) and a deafened streaming
member; the first member is not yet tracked. -/
theorem C3_witness :
    (find_suspects
        ⟨[⟨1, [⟨[⟨1, 1⟩, ⟨2, 1⟩]⟩], []⟩],
          fun m => if m.id == 1 then some ⟨true, false⟩
            else some ⟨true, true⟩⟩ 42 []).2 = none ∧
      (∀ t0 : Int, lookup [] ⟨1, 1⟩ = some t0 →
        lookup (find_suspects
          ⟨[⟨1, [⟨[⟨1, 1⟩, ⟨2, 1⟩]⟩], []⟩],
            fun m => if m.id == 1 then some ⟨true, false⟩
              else some ⟨true, true⟩⟩ 42 []).1 ⟨1, 1⟩ = some t0) ∧
      (lookup [] ⟨1, 1⟩ = none →
        ((lookup (find_suspects
            ⟨[⟨1, [⟨[⟨1, 1⟩, ⟨2, 1⟩]⟩], []⟩],
              fun m => if m.id == 1 then some ⟨true, false⟩
                else some ⟨true, true⟩⟩ 42 []).1 ⟨1, 1⟩ = some 42
            ↔ (⟨1, 1⟩ : Member) ∈ allVoiceMembers
                ⟨[⟨1, [⟨[⟨1, 1⟩, ⟨2, 1⟩]⟩], []⟩],
                  fun m => if m.id == 1 then some ⟨true, false⟩
                    else some ⟨true, true⟩⟩ ∧
              ∃ v, (if (1 : Nat) == 1 then some (⟨true, false⟩ : VoiceState)
                  else some ⟨true, true⟩) = some v ∧ v.self_deaf = true
                ∧ v.self_stream = false) ∧
          (¬((⟨1, 1⟩ : Member) ∈ allVoiceMembers
              ⟨[⟨1, [⟨[⟨1, 1⟩, ⟨2, 1⟩]⟩], []⟩],
                fun m => if m.id == 1 then some ⟨true, false⟩
                  else some ⟨true, true⟩⟩ ∧
              ∃ v, (if (1 : Nat) == 1 then some (⟨true, false⟩ : VoiceState)
                  else some ⟨true, true⟩) = some v ∧ v.self_deaf = true
                ∧ v.self_stream = false) →
            lookup (find_suspects
              ⟨[⟨1, [⟨[⟨1, 1⟩, ⟨2, 1⟩]⟩], []⟩],
                fun m => if m.id == 1 then some ⟨true, false⟩
                  else some ⟨true, true⟩⟩ 42 []).1 ⟨1, 1⟩ = none))) :=
  C3_detection_characterisation
    ⟨[⟨1, [⟨[⟨1, 1⟩, ⟨2, 1⟩]⟩], []⟩],
      fun m => if m.id == 1 then some ⟨true, false⟩
        else some ⟨true, true⟩⟩ 42 [] ⟨1, 1⟩
    (by unfold voiceOk; decide) (by unfold rosterNodup; decide)

/-- C5: the detection sweep is idempotent: a second run over an unchanged
roster returns the registry of the first run literally unchanged (and raises
nothing), the first run never refreshes an existing detection timestamp, and
registry keys stay unique, so no entry is ever duplicated. -/
theorem C5_detection_idempotent (w : World) (t1 t2 : Int) (s : Registry)
    (hvm : voiceOk w) (hnd : rosterNodup w) (hs : (keys s).Nodup) :
    find_suspects w t2 (find_suspects w t1 s).1
        = ((find_suspects w t1 s).1, none) ∧
      (∀ m t0, lookup s m = some t0 →
        lookup (find_suspects w t1 s).1 m = some t0) ∧
      (keys (find_suspects w t1 s).1).Nodup := by
  refine ⟨?_, fun m t0 h => find_suspects_lookup_some hnd h,
    find_suspects_keys_nodup hs⟩
  refine find_suspects_stable hvm ?_
  intro x hx hsusp
  by_cases h0 : lookup s x = none
  · have hx1 := (@find_suspects_lookup_new w t1 s x hvm hnd h0).mpr
      ⟨hx, hsusp⟩
    simp [containsKey, hx1]
  · rcases Option.ne_none_iff_exists'.mp h0 with ⟨t0, ht⟩
    have hx1 := @find_suspects_lookup_some w t1 s x t0 hnd ht
    simp [containsKey, hx1]

/-- C5 witness: two sweeps over the same one-channel roster starting from
the empty registry. -/
theorem C5_witness :
    find_suspects
        ⟨[⟨1, [⟨[⟨1, 1⟩]⟩], []⟩], fun _ => some ⟨true, false⟩⟩ 7
        (find_suspects
          ⟨[⟨1, [⟨[⟨1, 1⟩]⟩], []⟩], fun _ => some ⟨true, false⟩⟩ 3 []).1
        = ((find_suspects
          ⟨[⟨1, [⟨[⟨1, 1⟩]⟩], []⟩], fun _ => some ⟨true, false⟩⟩ 3 []).1,
          none) ∧
      (∀ m t0, lookup [] m = some t0 →
        lookup (find_suspects
          ⟨[⟨1, [⟨[⟨1, 1⟩]⟩], []⟩], fun _ => some ⟨true, false⟩⟩ 3 []).1 m
          = some t0) ∧
      (keys (find_suspects
        ⟨[⟨1, [⟨[⟨1, 1⟩]⟩], []⟩], fun _ => some ⟨true, false⟩⟩ 3 []).1).Nodup
      :=
  C5_detection_idempotent
    ⟨[⟨1, [⟨[⟨1, 1⟩]⟩], []⟩], fun _ => some ⟨true, false⟩⟩ 3 7 []
    (by unfold voiceOk; decide) (by unfold rosterNodup; decide) (by decide)

/-- C6: a member never observed self-deafened in any tick's world is never
inserted by a detection sweep and never re-appears through an examination
sweep: starting from any registry not containing the member, every reachable
state of the patrol loop still does not contain them. -/
theorem C6_never_deafened_never_tracked (ac : String) (pp : Int)
    (obs : List (World × Int)) (m : Member) (s : Registry)
    (hobs : ∀ p ∈ obs, ∀ v, p.1.voice m = some v → v.self_deaf = false)
    (h0 : lookup s m = none) :
    lookup (patrol_run ac pp obs s) m = none := by
  induction obs generalizing s with
  | nil => exact h0
  | cons p rest ih =>
      obtain ⟨w, t⟩ := p
      exact ih (patrol_tick w ac pp t s)
        (fun q hq => hobs q (List.mem_cons_of_mem _ hq))
        (patrol_tick_lookup_none
          (hobs (w, t) (List.mem_cons_self _ _)) h0)

/-- C6 witness: two patrol ticks over a roster whose only member is never
self-deafened leave the registry empty. -/
theorem C6_witness :
    lookup (patrol_run "commands" fiveMinutes
      [(⟨[⟨1, [⟨[⟨1, 1⟩]⟩], ["commands"]⟩], fun _ => some ⟨false, false⟩⟩, 0),
       (⟨[⟨1, [⟨[⟨1, 1⟩]⟩], ["commands"]⟩], fun _ => some ⟨false, true⟩⟩, 1)]
      []) ⟨1, 1⟩ = none :=
  C6_never_deafened_never_tracked "commands" fiveMinutes _ ⟨1, 1⟩ []
    (by
      intro p hp v hv
      rcases List.mem_cons.mp hp with rfl | hp
      · exact (Option.some.inj hv).symm ▸ rfl
      · rcases List.mem_cons.mp hp with rfl | hp
        · exact (Option.some.inj hv).symm ▸ rfl
        · cases hp) rfl

/-- C2: when the live voice state of a tracked suspect shows
`self_deafened == false` at examination time, `_examine_suspect` removes them
from the registry and performs no other action (no message, no disconnect,
no error), regardless of how much time has elapsed: the clear transition has
priority over disconnect and warn. -/
theorem C2_clear_has_priority (w : World) (ac : String) (pp now t : Int)
    (s : Registry) (m : Member) (v : VoiceState)
    (hnd : (keys s).Nodup) (hm : lookup s m = some t)
    (hv : w.voice m = some v) (hdeaf : v.self_deaf = false) :
    examine_suspect w ac pp now s m = ⟨erase s m, [], none⟩ ∧
      lookup (erase s m) m = none := by
  refine ⟨?_, lookup_erase_self m hnd⟩
  simp [examine_suspect, hv, hdeaf]

/-- C2 witness: a suspect detected at time 0 and examined un-deafened at time
`fiveMinutes` (probation already elapsed) is cleared with no disconnect and
no warning. -/
theorem C2_witness :
    examine_suspect ⟨[], fun _ => some ⟨false, false⟩⟩ "commands" fiveMinutes
        fiveMinutes [(⟨1, 1⟩, 0)] ⟨1, 1⟩ = ⟨[], [], none⟩ ∧
      lookup (erase [(⟨1, 1⟩, 0)] ⟨1, 1⟩) ⟨1, 1⟩ = none :=
  C2_clear_has_priority ⟨[], fun _ => some ⟨false, false⟩⟩ "commands"
    fiveMinutes fiveMinutes 0 [(⟨1, 1⟩, 0)] ⟨1, 1⟩ ⟨false, false⟩
    (by decide) rfl rfl rfl

/-- C7 counterexample: the claim says a negative duration is rejected, but
`set_probationary_period` only checks `isinstance(period, dt.timedelta)`, so
a negative `timedelta` replaces the configured five-minute period. -/
theorem C7_counterexample :
    (set_probationary_period ⟨"commands", fiveMinutes, []⟩
        (PyVal.timedelta (-60000000))).probationary_period = -60000000 ∧
      (-60000000 : Int) ≠ fiveMinutes :=
  ⟨rfl, by decide⟩

/-- C7 amended: a value that is not a `dt.timedelta` is rejected and leaves
the previous probationary period unchanged, but any `timedelta` — including a
negative duration — is accepted and stored. -/
theorem C7_amended (st : SnoopClientState) (v : PyVal) (d : Int)
    (hv : ∀ e : Int, v ≠ PyVal.timedelta e) (hd : d < 0) :
    set_probationary_period st v = st ∧
      (set_probationary_period st (PyVal.timedelta d)).probationary_period
        = d := by
  refine ⟨?_, rfl⟩
  cases v with
  | timedelta e => exact absurd rfl (hv e)
  | int n => rfl
  | str s => rfl

/-- C7 witness: a plain number leaves the period unchanged, while the
negative duration `-60` seconds is stored. -/
theorem C7_witness :
    set_probationary_period ⟨"commands", fiveMinutes, []⟩ (PyVal.int 7)
        = ⟨"commands", fiveMinutes, []⟩ ∧
      (set_probationary_period ⟨"commands", fiveMinutes, []⟩
        (PyVal.timedelta (-60000000))).probationary_period = -60000000 :=
  C7_amended ⟨"commands", fiveMinutes, []⟩ (PyVal.int 7) (-60000000)
    (fun e h => PyVal.noConfusion h) (by decide)

/-- C8: a concrete sweep over two suspects, both detected at time 0, in a
guild with no announcement channel.  The first suspect is still deafened and
inside the warning window, so `_sniff` raises `AttributeError` on
`None.send`; the exception propagates out of `_examine_all_suspects`, so the
second suspect — un-deafened and due to be cleared — is never examined and
stays in the registry, contradicting the claim that a per-suspect I/O
failure does not abort the rest of the sweep. -/
theorem C8_failure_aborts_sweep :
    examine_all_suspects
        ⟨[⟨1, [], []⟩],
          fun m => if m.id == 1 then some ⟨true, false⟩
            else some ⟨false, false⟩⟩
        "commands" fiveMinutes 180000000 [(⟨1, 1⟩, 0), (⟨2, 1⟩, 0)]
      = ⟨[(⟨1, 1⟩, 0), (⟨2, 1⟩, 0)], [], some PyErr.attributeError⟩ ∧
      examine_suspect
        ⟨[⟨1, [], []⟩],
          fun m => if m.id == 1 then some ⟨true, false⟩
            else some ⟨false, false⟩⟩
        "commands" fiveMinutes 180000000 [(⟨1, 1⟩, 0), (⟨2, 1⟩, 0)] ⟨2, 1⟩
      = ⟨[(⟨1, 1⟩, 0)], [], none⟩ :=
  ⟨rfl, rfl⟩

/-- C9 counterexample: with announcement channel name `"commands"` but a
guild whose only text channel is `"general"`, `_sniff` does not complete
silently: `_get_announcement_channel` returns `None` and `None.send` raises
`AttributeError`. -/
theorem C9_counterexample :
    sniff ⟨[⟨1, [], ["general"]⟩], fun _ => some ⟨true, false⟩⟩ "commands"
        ⟨1, 1⟩ = Except.error PyErr.attributeError ∧
      announce_snoop ⟨[⟨1, [], ["general"]⟩], fun _ => some ⟨true, false⟩⟩
        "commands" ⟨1, 1⟩ = Except.error PyErr.attributeError :=
  ⟨rfl, rfl⟩

/-- C9 amended: when no text channel with the configured name exists in the
suspect's guild, the channel lookup returns `None` and both the warning and
the disconnect announcement raise `AttributeError` instead of sending
anything; the failure is loud (an uncaught exception), not silent. -/
theorem C9_amended (w : World) (ac : String) (m : Member)
    (h : get_announcement_channel w ac m = none) :
    sniff w ac m = Except.error PyErr.attributeError ∧
      announce_snoop w ac m = Except.error PyErr.attributeError := by
  simp [sniff, announce_snoop, h]

/-- C9 witness: the amended claim at the concrete guild that only has a
`"general"` text channel. -/
theorem C9_witness :
    sniff ⟨[⟨1, [], ["general"]⟩], fun _ => some ⟨true, false⟩⟩ "commands"
        ⟨1, 1⟩ = Except.error PyErr.attributeError ∧
      announce_snoop ⟨[⟨1, [], ["general"]⟩], fun _ => some ⟨true, false⟩⟩
        "commands" ⟨1, 1⟩ = Except.error PyErr.attributeError :=
  C9_amended ⟨[⟨1, [], ["general"]⟩], fun _ => some ⟨true, false⟩⟩ "commands"
    ⟨1, 1⟩ rfl

/-- C1: for a tracked suspect still self-deafened at examination time with
`now >= detected_at + probationary_period`, the examination disconnects them
(`move_to None`) and removes them from the registry; afterwards the member
is no longer tracked and `_probation_period_ended` reports `False` for them,
so a repeated check is a no-op. -/
theorem C1_probation_elapsed_disconnects (w : World) (ac : String)
    (pp now t : Int) (s : Registry) (m : Member) (v : VoiceState)
    (hnd : (keys s).Nodup) (hm : lookup s m = some t)
    (hv : w.voice m = some v) (hdeaf : v.self_deaf = true)
    (hend : now ≥ t + pp) :
    (examine_suspect w ac pp now s m).suspects = erase s m ∧
      Action.moveTo m ∈ (examine_suspect w ac pp now s m).actions ∧
      lookup (erase s m) m = none ∧
      probation_period_ended pp now (erase s m) m = false := by
  have hended : probation_period_ended pp now s m = true := by
    simp only [probation_period_ended, hm, decide_eq_true_eq]
    exact hend
  have he : lookup (erase s m) m = none := lookup_erase_self m hnd
  have hnot : probation_period_ended pp now (erase s m) m = false := by
    simp [probation_period_ended, he]
  have hstep : examine_suspect w ac pp now s m = handle_snoop w ac s m := by
    simp [examine_suspect, hv, hdeaf, hended]
  rw [hstep]
  cases hann : announce_snoop w ac m with
  | error e =>
      exact ⟨by simp [handle_snoop, hann], by simp [handle_snoop, hann],
        he, hnot⟩
  | ok acts =>
      exact ⟨by simp [handle_snoop, hann], by simp [handle_snoop, hann],
        he, hnot⟩

/-- C1 witness: a suspect detected at time 0, still deafened when examined at
`fiveMinutes`, is moved out of voice, dropped from the registry, and a
repeated probation check on the updated registry reports `False`. -/
theorem C1_witness :
    (examine_suspect ⟨[⟨1, [], ["commands"]⟩], fun _ => some ⟨true, false⟩⟩
        "commands" fiveMinutes fiveMinutes [(⟨1, 1⟩, 0)] ⟨1, 1⟩).suspects
      = erase [(⟨1, 1⟩, 0)] ⟨1, 1⟩ ∧
      Action.moveTo ⟨1, 1⟩ ∈
        (examine_suspect ⟨[⟨1, [], ["commands"]⟩],
          fun _ => some ⟨true, false⟩⟩
          "commands" fiveMinutes fiveMinutes [(⟨1, 1⟩, 0)] ⟨1, 1⟩).actions ∧
      lookup (erase [(⟨1, 1⟩, 0)] ⟨1, 1⟩) ⟨1, 1⟩ = none ∧
      probation_period_ended fiveMinutes fiveMinutes
        (erase [(⟨1, 1⟩, 0)] ⟨1, 1⟩) ⟨1, 1⟩ = false :=
  C1_probation_elapsed_disconnects
    ⟨[⟨1, [], ["commands"]⟩], fun _ => some ⟨true, false⟩⟩ "commands"
    fiveMinutes fiveMinutes 0 [(⟨1, 1⟩, 0)] ⟨1, 1⟩ ⟨true, false⟩
    (by decide) rfl rfl rfl (by decide)

/-- C4: for a still-deafened tracked suspect whose probation has not ended,
in a guild where the announcement channel exists, the examination sends the
warning exactly when `now` lies in the closed window
`[probation_end - 2min - 0.1s, probation_end - 2min + 0.1s]` with
`probation_end = detected_at + probationary_period`; outside the window the
examination does nothing and the suspect stays tracked. -/
theorem C4_warn_window (w : World) (ac ch : String) (pp now t : Int)
    (s : Registry) (m : Member) (v : VoiceState)
    (hm : lookup s m = some t) (hv : w.voice m = some v)
    (hdeaf : v.self_deaf = true) (hlt : now < t + pp)
    (hch : get_announcement_channel w ac m = some ch) :
    (examine_suspect w ac pp now s m).suspects = s ∧
      (examine_suspect w ac pp now s m).err = none ∧
      ((examine_suspect w ac pp now s m).actions
          = [Action.send m.guildId ch (sniffMsg m)]
        ↔ (t + pp - twoMinutes - allowance ≤ now ∧
            now ≤ t + pp - twoMinutes + allowance)) ∧
      ((examine_suspect w ac pp now s m).actions = []
        ↔ ¬(t + pp - twoMinutes - allowance ≤ now ∧
            now ≤ t + pp - twoMinutes + allowance)) := by
  have hnotend : probation_period_ended pp now s m = false := by
    simp only [probation_period_ended, hm, decide_eq_false_iff_not]
    omega
  have hsn : sniff w ac m = Except.ok [Action.send m.guildId ch (sniffMsg m)]
      := by simp [sniff, hch]
  by_cases hwin : t + pp - twoMinutes - allowance ≤ now ∧
      now ≤ t + pp - twoMinutes + allowance
  · have happ : probation_end_approaching pp now s m = true := by
      simp only [probation_end_approaching, hm, decide_eq_true_eq]
      omega
    have hstep : examine_suspect w ac pp now s m
        = ⟨s, [Action.send m.guildId ch (sniffMsg m)], none⟩ := by
      simp [examine_suspect, hv, hdeaf, hnotend, happ, hsn]
    rw [hstep]
    simp [hwin]
  · have happ : probation_end_approaching pp now s m = false := by
      simp only [probation_end_approaching, hm, decide_eq_false_iff_not]
      omega
    have hstep : examine_suspect w ac pp now s m = ⟨s, [], none⟩ := by
      simp [examine_suspect, hv, hdeaf, hnotend, happ]
    rw [hstep]
    exact ⟨rfl, rfl, iff_of_false (by simp) hwin, iff_of_true rfl hwin⟩

/-- C4 witness: a suspect detected at time 0 with a five-minute probation,
examined exactly three minutes in (the centre of the warning window), in a
guild that has the `"commands"` channel. -/
theorem C4_witness :
    (examine_suspect ⟨[⟨1, [], ["commands"]⟩], fun _ => some ⟨true, false⟩⟩
        "commands" fiveMinutes 180000000 [(⟨1, 1⟩, 0)] ⟨1, 1⟩).suspects
      = [(⟨1, 1⟩, 0)] ∧
      (examine_suspect ⟨[⟨1, [], ["commands"]⟩], fun _ => some ⟨true, false⟩⟩
        "commands" fiveMinutes 180000000 [(⟨1, 1⟩, 0)] ⟨1, 1⟩).err = none ∧
      ((examine_suspect ⟨[⟨1, [], ["commands"]⟩], fun _ => some ⟨true, false⟩⟩
          "commands" fiveMinutes 180000000 [(⟨1, 1⟩, 0)] ⟨1, 1⟩).actions
        = [Action.send (Member.mk 1 1).guildId "commands"
            (sniffMsg ⟨1, 1⟩)]
        ↔ ((0 : Int) + fiveMinutes - twoMinutes - allowance ≤ 180000000 ∧
            (180000000 : Int) ≤ 0 + fiveMinutes - twoMinutes + allowance)) ∧
      ((examine_suspect ⟨[⟨1, [], ["commands"]⟩], fun _ => some ⟨true, false⟩⟩
          "commands" fiveMinutes 180000000 [(⟨1, 1⟩, 0)] ⟨1, 1⟩).actions = []
        ↔ ¬((0 : Int) + fiveMinutes - twoMinutes - allowance ≤ 180000000 ∧
            (180000000 : Int) ≤ 0 + fiveMinutes - twoMinutes + allowance)) :=
  C4_warn_window ⟨[⟨1, [], ["commands"]⟩], fun _ => some ⟨true, false⟩⟩
    "commands" "commands" fiveMinutes 180000000 0 [(⟨1, 1⟩, 0)] ⟨1, 1⟩
    ⟨true, false⟩ rfl rfl rfl (by decide) rfl

/-- C10: when a tracked suspect has left voice entirely (`member.voice` is
`None`), `_examine_suspect` raises `AttributeError` while reading
`suspect.voice.self_deaf` and mutates nothing: the suspect is not cleared
from the registry, so the clear branch is only reachable when a voice state
exists. -/
theorem C10_examine_raises_when_voice_absent (w : World) (ac : String)
    (pp now : Int) (s : Registry) (m : Member) (h : w.voice m = none) :
    examine_suspect w ac pp now s m = ⟨s, [], some PyErr.attributeError⟩ := by
  simp [examine_suspect, h]

/-- C10 witness: a suspect with no voice state makes the examination raise,
leaving the registry untouched. -/
theorem C10_witness :
    examine_suspect ⟨[], fun _ => none⟩ "commands" fiveMinutes 0
        [(⟨1, 1⟩, 0)] ⟨1, 1⟩
      = ⟨[(⟨1, 1⟩, 0)], [], some PyErr.attributeError⟩ :=
  C10_examine_raises_when_voice_absent ⟨[], fun _ => none⟩ "commands"
    fiveMinutes 0 [(⟨1, 1⟩, 0)] ⟨1, 1⟩ rfl

end Snoop
